import Mathlib

/-!
Verification of the halotools core subset: radial halo profile models
(`empirical_models/profile_models.py`) and the inverse-transformation-sampling
utilities (`utils/inverse_transformation_sampling.py`).

Embedding conventions:
* Python floats are embedded as exact numbers: the sampling utilities
  (pure rational arithmetic) over `ℚ`, the profile formulas (which use
  `np.log`) over `ℝ`.
* A numpy scalar argument passes through `convert_to_ndarray` and becomes a
  length-one array; arrays are embedded as lists, so a scalar call site
  corresponds to a singleton list.
* A Python function that contains `raise`/`assert` statements is embedded as
  an `Except PyError` computation whose `error` branches are exactly the
  `raise` sites of the source; a function with no raise site is a plain
  function.
* `scipy.integrate.quad(f, 0, r, epsrel=1e-5)` is idealized as the exact
  interval integral `∫ t in 0..r, f t`.
-/

/-- Embedding of the Python exception values that the modeled module can
raise.  `halotoolsError` is the repository's `HalotoolsError`,
`valueError`/`assertionError` are the Python builtins; `domainError` embeds
the `DomainError` of the specification's error taxonomy (section 7), which
has no raise site anywhere in the source. -/
inductive PyError where
  | halotoolsError (msg : String)
  | valueError (msg : String)
  | assertionError (msg : String)
  | domainError
deriving DecidableEq, Repr

/-- Message of the `HalotoolsError` raised by `NFWProfile.cumulative_mass_PDF`
on an array-length mismatch, exactly as concatenated in the source. -/
def nfwLengthMismatchMsg : String :=
  "If passing an array of concentrations to cumulative_mass_PDF, the array must have the same length as the input array of radial positions"

/-- Message of the `ValueError` raised by `monte_carlo_from_cdf_lookup` when
the sentinel input is used with no number of draws (backtick markup of the
source string dropped). -/
def mcNeitherMsg : String :=
  "If input mc_input is set to random, num_draws must be specified"

/-- Message of the `ValueError` raised by `monte_carlo_from_cdf_lookup` when
both an explicit input array and a number of draws are given (backtick markup
of the source string dropped). -/
def mcBothMsg : String :=
  "If input mc_input is specified, the num_draws keyword should be left unspecified."

/-- Message of the `assert` in `build_cdf_lookup`. -/
def buildCdfAssertMsg : String :=
  "Input y has only one element"

/-- Model of `np.interp(x, xp, fp)` at a single point `x`, over the zipped
table `(xp, fp)`: values below the first control point clamp to the first
`fp` entry, values beyond the last control point clamp to the last `fp`
entry, and interior values are linearly interpolated between the two
bracketing control points. -/
def interpTbl : ℚ → List (ℚ × ℚ) → ℚ
  | _, [] => 0
  | _, [p] => p.2
  | x, p :: q :: rest =>
      if x ≤ p.1 then p.2
      else if x ≤ q.1 then p.2 + (q.2 - p.2) * (x - p.1) / (q.1 - p.1)
      else interpTbl x (q :: rest)

/-- Model of the vectorized `np.interp(x, xp, fp)`. -/
def np_interp (x xp fp : List ℚ) : List ℚ :=
  x.map (fun t => interpTbl t (xp.zip fp))

/-- Model of `_sorted_rank_order_array(npts)` from
`inverse_transformation_sampling.py`: the array
`[1/(npts+1), 2/(npts+1), ..., npts/(npts+1)]`. -/
def sorted_rank_order_array (npts : ℕ) : List ℚ :=
  (List.range npts).map (fun i : ℕ => ((i : ℚ) + 1) / ((npts : ℚ) + 1))

/-- Message of the `warn` call in `build_cdf_lookup`, exactly as formatted in
the source (with its double space): note it announces lowering
`npts_lookup_table` to `npts_y`, an action the subsequent `max` never
performs. -/
def buildCdfWarnMsg (npts_y npts_lookup_table : ℕ) : String :=
  "npts_y = " ++ toString npts_y ++ " is less than  npts_lookup_table = " ++
    toString npts_lookup_table ++ ".\n" ++ "Setting npts_lookup_table to " ++
    toString npts_y

/-- Model of `build_cdf_lookup(y, npts_lookup_table)` from
`inverse_transformation_sampling.py`.  The `assert len(y) > 1` becomes the
`assertionError` branch; `np.sort` is modeled by `List.insertionSort`
(the sorted permutation); the `warn` call is modeled by the list of warning
messages returned alongside the tables — note the source's condition is
`npts_y < npts_lookup_table`, so the warning fires when the data is smaller
than the requested table, not when the table size is raised. -/
def build_cdf_lookup (y : List ℚ) (npts_lookup_table : ℕ) :
    Except PyError ((List ℚ × List ℚ) × List String) :=
  if y.length ≤ 1 then Except.error (PyError.assertionError buildCdfAssertMsg)
  else
    let npts_y := y.length
    let warnings :=
      if npts_y < npts_lookup_table then
        [buildCdfWarnMsg npts_y npts_lookup_table]
      else []
    let npts_table := max npts_lookup_table npts_y
    let sorted_y := y.insertionSort (· ≤ ·)
    let normed_rank_order := sorted_rank_order_array npts_y
    let x_table := sorted_rank_order_array npts_table
    let y_table := np_interp x_table normed_rank_order sorted_y
    Except.ok ((x_table, y_table), warnings)

/-- Model of `monte_carlo_from_cdf_lookup(x_table, y_table, mc_input,
num_draws, seed)`.  The Python sentinel default `mc_input='random'` is
embedded as `none`; an explicit input array as `some`.  The seeded call to
`np.random.rand(num_draws)` is modeled by the oracle argument `rand`, so the
function is deterministic in the oracle exactly as the source is
deterministic in the underlying generator state. -/
def monte_carlo_from_cdf_lookup (x_table y_table : List ℚ)
    (mc_input : Option (List ℚ)) (num_draws : Option ℕ) (rand : ℕ → List ℚ) :
    Except PyError (List ℚ) :=
  match mc_input with
  | none =>
    match num_draws with
    | none => Except.error (PyError.valueError mcNeitherMsg)
    | some n => Except.ok (np_interp (rand n) x_table y_table)
  | some arr =>
    match num_draws with
    | some _ => Except.error (PyError.valueError mcBothMsg)
    | none => Except.ok (np_interp arr x_table y_table)

/-- C8: `monte_carlo_from_cdf_lookup` accepts exactly one of
`mc_input`/`num_draws`: the sentinel together with `num_draws = None` raises
a `ValueError`, an explicit array together with a non-`None` `num_draws`
raises a `ValueError`, and in the two remaining cases the function returns
the interpolated array without raising. -/
theorem monte_carlo_input_validation (x_table y_table arr : List ℚ) (n : ℕ)
    (rand : ℕ → List ℚ) :
    monte_carlo_from_cdf_lookup x_table y_table none none rand =
        Except.error (PyError.valueError mcNeitherMsg)
    ∧ monte_carlo_from_cdf_lookup x_table y_table (some arr) (some n) rand =
        Except.error (PyError.valueError mcBothMsg)
    ∧ monte_carlo_from_cdf_lookup x_table y_table none (some n) rand =
        Except.ok (np_interp (rand n) x_table y_table)
    ∧ monte_carlo_from_cdf_lookup x_table y_table (some arr) none rand =
        Except.ok (np_interp arr x_table y_table) := by
  refine ⟨rfl, rfl, rfl, rfl⟩

/-- Value of the linear-interpolation segment is at least its left endpoint
when the right endpoint is at least the left one. -/
theorem le_segment (p2 q2 A B : ℚ) (hB : 0 < B) (hA : 0 ≤ A) (hpq : p2 ≤ q2) :
    p2 ≤ p2 + (q2 - p2) * A / B := by
  have h0 : 0 ≤ (q2 - p2) * A / B :=
    div_nonneg (mul_nonneg (by linarith) hA) hB.le
  linarith

/-- Value of the linear-interpolation segment is at most its right endpoint
when the interpolation weight is at most one. -/
theorem segment_le (p2 q2 A B : ℚ) (hB : 0 < B) (hAB : A ≤ B) (hpq : p2 ≤ q2) :
    p2 + (q2 - p2) * A / B ≤ q2 := by
  have h1 : A / B ≤ 1 := (div_le_one hB).mpr hAB
  have h2 : (q2 - p2) * (A / B) ≤ (q2 - p2) * 1 :=
    mul_le_mul_of_nonneg_left h1 (by linarith)
  have h3 : (q2 - p2) * A / B = (q2 - p2) * (A / B) := mul_div_assoc _ _ _
  linarith [h3 ▸ h2]

/-- Every interpolated value over a nonempty table is bounded below by some
table entry: the interpolation never extrapolates below the tabulated
values. -/
theorem interpTbl_exists_le (x : ℚ) :
    ∀ tbl : List (ℚ × ℚ), tbl ≠ [] → ∃ p ∈ tbl, p.2 ≤ interpTbl x tbl := by
  intro tbl
  induction tbl with
  | nil => intro h; exact absurd rfl h
  | cons p tail ih =>
    intro _
    cases tail with
    | nil => exact ⟨p, List.mem_cons_self _ _, by simp [interpTbl]⟩
    | cons q rest =>
      by_cases h1 : x ≤ p.1
      · exact ⟨p, List.mem_cons_self _ _, by simp [interpTbl, h1]⟩
      · by_cases h2 : x ≤ q.1
        · have hxp : p.1 < x := lt_of_not_le h1
          have hB : 0 < q.1 - p.1 := by linarith
          have hA : 0 ≤ x - p.1 := by linarith
          by_cases hpq : p.2 ≤ q.2
          · refine ⟨p, List.mem_cons_self _ _, ?_⟩
            simp only [interpTbl, if_neg h1, if_pos h2]
            exact le_segment p.2 q.2 (x - p.1) (q.1 - p.1) hB hA hpq
          · refine ⟨q, List.mem_cons_of_mem _ (List.mem_cons_self _ _), ?_⟩
            simp only [interpTbl, if_neg h1, if_pos h2]
            have hAB : x - p.1 ≤ q.1 - p.1 := by linarith
            have h1' : (x - p.1) / (q.1 - p.1) ≤ 1 := (div_le_one hB).mpr hAB
            have h2' : (p.2 - q.2) * ((x - p.1) / (q.1 - p.1)) ≤ (p.2 - q.2) * 1 :=
              mul_le_mul_of_nonneg_left h1' (by linarith [lt_of_not_le hpq])
            have h3' : (q.2 - p.2) * (x - p.1) / (q.1 - p.1) =
                -((p.2 - q.2) * ((x - p.1) / (q.1 - p.1))) := by ring
            rw [h3']
            linarith
        · obtain ⟨p', hp', hle⟩ := ih (by simp)
          refine ⟨p', List.mem_cons_of_mem _ hp', ?_⟩
          simpa only [interpTbl, if_neg h1, if_neg h2] using hle
/-- Every interpolated value over a nonempty table is bounded above by some
table entry: the interpolation never extrapolates above the tabulated
values. -/
theorem interpTbl_exists_ge (x : ℚ) :
    ∀ tbl : List (ℚ × ℚ), tbl ≠ [] → ∃ p ∈ tbl, interpTbl x tbl ≤ p.2 := by
  intro tbl
  induction tbl with
  | nil => intro h; exact absurd rfl h
  | cons p tail ih =>
    intro _
    cases tail with
    | nil => exact ⟨p, List.mem_cons_self _ _, by simp [interpTbl]⟩
    | cons q rest =>
      by_cases h1 : x ≤ p.1
      · exact ⟨p, List.mem_cons_self _ _, by simp [interpTbl, h1]⟩
      · by_cases h2 : x ≤ q.1
        · have hxp : p.1 < x := lt_of_not_le h1
          have hB : 0 < q.1 - p.1 := by linarith
          have hA : 0 ≤ x - p.1 := by linarith
          have hAB : x - p.1 ≤ q.1 - p.1 := by linarith
          by_cases hpq : p.2 ≤ q.2
          · refine ⟨q, List.mem_cons_of_mem _ (List.mem_cons_self _ _), ?_⟩
            simp only [interpTbl, if_neg h1, if_pos h2]
            exact segment_le p.2 q.2 (x - p.1) (q.1 - p.1) hB hAB hpq
          · refine ⟨p, List.mem_cons_self _ _, ?_⟩
            simp only [interpTbl, if_neg h1, if_pos h2]
            have h0 : (q.2 - p.2) * (x - p.1) / (q.1 - p.1) ≤ 0 := by
              apply div_nonpos_of_nonpos_of_nonneg _ hB.le
              exact mul_nonpos_of_nonpos_of_nonneg (by linarith [lt_of_not_le hpq]) hA
            linarith
        · obtain ⟨p', hp', hle⟩ := ih (by simp)
          refine ⟨p', List.mem_cons_of_mem _ hp', ?_⟩
          simpa only [interpTbl, if_neg h1, if_neg h2] using hle

/-- Constant lower bound: a value that bounds every tabulated ordinate from
below also bounds every interpolated value from below. -/
theorem le_interpTbl_of_forall (x c : ℚ) (tbl : List (ℚ × ℚ)) (hne : tbl ≠ [])
    (h : ∀ p ∈ tbl, c ≤ p.2) : c ≤ interpTbl x tbl := by
  obtain ⟨p, hp, hle⟩ := interpTbl_exists_le x tbl hne
  exact (h p hp).trans hle

/-- Head entry of a table whose ordinates are chained by `≤` bounds every
entry's ordinate from below. -/
theorem chain_snd_le_of_mem :
    ∀ (q : ℚ × ℚ) (rest : List (ℚ × ℚ)),
      List.Chain' (fun a b : ℚ × ℚ => a.1 < b.1 ∧ a.2 ≤ b.2) (q :: rest) →
      ∀ p ∈ q :: rest, q.2 ≤ p.2 := by
  intro q rest
  induction rest generalizing q with
  | nil =>
    intro _ p hp
    rw [List.mem_singleton.mp hp]
  | cons r rs ih =>
    intro hch p hp
    rcases List.mem_cons.mp hp with hq | hp'
    · rw [hq]
    · have h1 : q.2 ≤ r.2 := (List.chain'_cons.mp hch).1.2
      have h2 := ih r (List.chain'_cons.mp hch).2 p hp'
      linarith

/-- Zipping two chained lists yields a list chained by the componentwise
conjunction of the two relations. -/
theorem chain'_zip {R S : ℚ → ℚ → Prop} :
    ∀ (xs ys : List ℚ), List.Chain' R xs → List.Chain' S ys →
      List.Chain' (fun a b : ℚ × ℚ => R a.1 b.1 ∧ S a.2 b.2) (xs.zip ys) := by
  intro xs
  induction xs with
  | nil => intro ys _ _; simp
  | cons x xs' ih =>
    intro ys hx hy
    cases ys with
    | nil => simp
    | cons y ys' =>
      cases xs' with
      | nil => simp
      | cons x2 xs'' =>
        cases ys' with
        | nil => simp
        | cons y2 ys'' =>
          rw [List.zip_cons_cons, List.zip_cons_cons]
          refine List.chain'_cons.mpr ⟨⟨(List.chain'_cons.mp hx).1, (List.chain'_cons.mp hy).1⟩, ?_⟩
          rw [← List.zip_cons_cons]
          exact ih (y2 :: ys'') (List.chain'_cons.mp hx).2 (List.chain'_cons.mp hy).2

/-- Interpolation against a table with strictly increasing control points and
non-decreasing ordinates is monotone in the query point. -/
theorem interpTbl_mono (x x' : ℚ) (hxx : x ≤ x') :
    ∀ tbl : List (ℚ × ℚ),
      List.Chain' (fun a b : ℚ × ℚ => a.1 < b.1 ∧ a.2 ≤ b.2) tbl →
      interpTbl x tbl ≤ interpTbl x' tbl := by
  intro tbl
  induction tbl with
  | nil => intro _; simp [interpTbl]
  | cons p tail ih =>
    intro hch
    cases tail with
    | nil => simp [interpTbl]
    | cons q rest =>
      have hS : p.1 < q.1 ∧ p.2 ≤ q.2 := (List.chain'_cons.mp hch).1
      have hch' : List.Chain' (fun a b : ℚ × ℚ => a.1 < b.1 ∧ a.2 ≤ b.2) (q :: rest) :=
        (List.chain'_cons.mp hch).2
      have hB : 0 < q.1 - p.1 := sub_pos.mpr hS.1
      by_cases h1 : x ≤ p.1
      · by_cases h1' : x' ≤ p.1
        · simp [interpTbl, h1, h1']
        · by_cases h2' : x' ≤ q.1
          · simp only [interpTbl, if_pos h1, if_neg h1', if_pos h2']
            exact le_segment p.2 q.2 (x' - p.1) (q.1 - p.1) hB
              (by linarith [lt_of_not_le h1']) hS.2
          · simp only [interpTbl, if_pos h1, if_neg h1', if_neg h2']
            have hlb : q.2 ≤ interpTbl x' (q :: rest) :=
              le_interpTbl_of_forall x' q.2 (q :: rest) (by simp)
                (chain_snd_le_of_mem q rest hch')
            linarith [hS.2]
      · have hxp : p.1 < x := lt_of_not_le h1
        have h1' : ¬ x' ≤ p.1 := fun hc => h1 (hxx.trans hc)
        by_cases h2 : x ≤ q.1
        · by_cases h2' : x' ≤ q.1
          · simp only [interpTbl, if_neg h1, if_pos h2, if_neg h1', if_pos h2']
            have hq2 : 0 ≤ q.2 - p.2 := sub_nonneg.mpr hS.2
            gcongr
          · simp only [interpTbl, if_neg h1, if_pos h2, if_neg h1', if_neg h2']
            have hub : p.2 + (q.2 - p.2) * (x - p.1) / (q.1 - p.1) ≤ q.2 :=
              segment_le p.2 q.2 (x - p.1) (q.1 - p.1) hB (by linarith) hS.2
            have hlb : q.2 ≤ interpTbl x' (q :: rest) :=
              le_interpTbl_of_forall x' q.2 (q :: rest) (by simp)
                (chain_snd_le_of_mem q rest hch')
            linarith
        · have h2' : ¬ x' ≤ q.1 := fun hc => h2 (hxx.trans hc)
          simp only [interpTbl, if_neg h1, if_neg h2, if_neg h1', if_neg h2']
          exact ih hch'

/-- Bounds for every entry of a vectorized interpolation: each output value is
bracketed by two entries of the ordinate table. -/
theorem np_interp_mem_bounds (src x_table y_table : List ℚ)
    (hlen : x_table.length = y_table.length) (hne : y_table ≠ []) :
    ∀ v ∈ np_interp src x_table y_table,
      ∃ a ∈ y_table, a ≤ v ∧ ∃ b ∈ y_table, v ≤ b := by
  intro v hv
  obtain ⟨u, _, rfl⟩ := List.mem_map.mp hv
  have hzlen : (x_table.zip y_table).length = y_table.length := by
    rw [List.length_zip, hlen, min_self]
  have hzne : x_table.zip y_table ≠ [] := by
    rw [← List.length_pos, hzlen, List.length_pos]
    exact hne
  obtain ⟨p, hp, hle⟩ := interpTbl_exists_le u _ hzne
  obtain ⟨q, hq, hge⟩ := interpTbl_exists_ge u _ hzne
  exact ⟨p.2, (List.of_mem_zip hp).2, hle, q.2, (List.of_mem_zip hq).2, hge⟩

/-- C10: every value returned by `monte_carlo_from_cdf_lookup` is bracketed
by entries of `y_table` (hence lies in `[min y_table, max y_table]`) when the
table ordinates are monotonically non-decreasing: interpolation clamps at the
table endpoints and never extrapolates, whatever the entries of `mc_input`
(including values outside `[0, 1]`). -/
theorem monte_carlo_output_within_table_bounds
    (x_table y_table : List ℚ) (mc_input : Option (List ℚ))
    (num_draws : Option ℕ) (rand : ℕ → List ℚ) (out : List ℚ)
    (hlen : x_table.length = y_table.length) (hne : y_table ≠ [])
    (hmono : List.Chain' (· ≤ ·) y_table)
    (hok : monte_carlo_from_cdf_lookup x_table y_table mc_input num_draws rand =
      Except.ok out) :
    ∀ v ∈ out, ∃ a ∈ y_table, a ≤ v ∧ ∃ b ∈ y_table, v ≤ b := by
  match mc_input, num_draws with
  | none, none => exact absurd hok (by simp [monte_carlo_from_cdf_lookup])
  | some arr, some n => exact absurd hok (by simp [monte_carlo_from_cdf_lookup])
  | none, some n =>
    have : np_interp (rand n) x_table y_table = out := by
      simpa [monte_carlo_from_cdf_lookup] using hok
    exact this ▸ np_interp_mem_bounds (rand n) x_table y_table hlen hne
  | some arr, none =>
    have : np_interp arr x_table y_table = out := by
      simpa [monte_carlo_from_cdf_lookup] using hok
    exact this ▸ np_interp_mem_bounds arr x_table y_table hlen hne

/-- Witness for C10 at a concrete table `x_table = [1, 2]`,
`y_table = [10, 20]` and the out-of-range input `mc_input = [5]`, whose
interpolated value clamps to the last table entry `20`. -/
theorem monte_carlo_output_within_table_bounds_witness :
    ∃ a ∈ ([10, 20] : List ℚ), a ≤ 20 ∧ ∃ b ∈ ([10, 20] : List ℚ), (20:ℚ) ≤ b :=
  monte_carlo_output_within_table_bounds [1, 2] [10, 20] (some [5]) none
    (fun _ => []) [20] (by norm_num) (by simp)
    (List.chain'_pair.mpr (by norm_num))
    (by norm_num [monte_carlo_from_cdf_lookup, np_interp, interpTbl])
    20 (by simp)

/-- Length of the rank-order position array. -/
theorem sorted_rank_order_array_length (n : ℕ) :
    (sorted_rank_order_array n).length = n := by
  rw [sorted_rank_order_array, List.length_map, List.length_range]

/-- Entry formula of the rank-order position array: the `i`-th entry is
`(i+1)/(n+1)`. -/
theorem sorted_rank_order_array_get (n i : ℕ)
    (hi : i < (sorted_rank_order_array n).length) :
    (sorted_rank_order_array n).get ⟨i, hi⟩ = ((i : ℚ) + 1) / ((n : ℚ) + 1) := by
  simp only [sorted_rank_order_array, List.get_eq_getElem, List.getElem_map,
    List.getElem_range]

/-- Rank-order positions are strictly increasing. -/
theorem sorted_rank_order_array_chain (n : ℕ) :
    List.Chain' (· < ·) (sorted_rank_order_array n) := by
  rw [sorted_rank_order_array]
  apply List.Pairwise.chain'
  apply (List.pairwise_lt_range n).map
  intro a b hab
  have hn : (0:ℚ) < (n : ℚ) + 1 := by positivity
  have hcast : ((a:ℚ) + 1) < ((b:ℚ) + 1) := by exact_mod_cast Nat.succ_lt_succ hab
  exact (div_lt_div_iff_of_pos_right hn).mpr hcast

/-- Rank-order positions lie strictly inside `(0, 1)`. -/
theorem sorted_rank_order_array_mem (n : ℕ) :
    ∀ v ∈ sorted_rank_order_array n, 0 < v ∧ v < 1 := by
  intro v hv
  rw [sorted_rank_order_array] at hv
  obtain ⟨i, hi, rfl⟩ := List.mem_map.mp hv
  have hi' : i < n := List.mem_range.mp hi
  constructor
  · positivity
  · rw [div_lt_one (by positivity)]
    exact_mod_cast Nat.succ_lt_succ hi'

/-- Counterexample to C9 as stated: at `y = [3, 1, 2]` with requested table
size `2 < len y = 3`, the table size is raised to `3` but the warnings list
is empty — no warning fires in the case the claim describes.  The source's
warning instead fires in the opposite case (`y = [3, 1]`, requested size
`4 > len y = 2`), where the size stays at `4`, unchanged, and the message
announces a lowering that never happens. -/
theorem build_cdf_lookup_warning_counterexample :
    (build_cdf_lookup [3, 1, 2] 2 =
        Except.ok ((sorted_rank_order_array 3,
          np_interp (sorted_rank_order_array 3) (sorted_rank_order_array 3)
            (([3, 1, 2] : List ℚ).insertionSort (· ≤ ·))), [])
      ∧ (sorted_rank_order_array 3).length = 3)
    ∧ (build_cdf_lookup [3, 1] 4 =
        Except.ok ((sorted_rank_order_array 4,
          np_interp (sorted_rank_order_array 4) (sorted_rank_order_array 2)
            (([3, 1] : List ℚ).insertionSort (· ≤ ·))), [buildCdfWarnMsg 2 4])
      ∧ (sorted_rank_order_array 4).length = 4) := by
  refine ⟨⟨?_, sorted_rank_order_array_length 3⟩,
    ⟨?_, sorted_rank_order_array_length 4⟩⟩
  · rw [build_cdf_lookup, if_neg (by norm_num)]
    norm_num
  · rw [build_cdf_lookup, if_neg (by norm_num)]
    norm_num

/-- C9 as amended: for an input with at least two elements,
`build_cdf_lookup` returns a pair of tables of equal length
`max npts_lookup_table (len y) ≥ 2`, the control points being the rank
positions `(i+1)/(n+1)`, strictly increasing and strictly inside `(0,1)`,
the ordinate table monotonically non-decreasing; a requested table size below
`len y` is raised to `len y` but with NO warning — the source's warning fires
only in the opposite case `len y < npts_lookup_table`, where the table size
is left unchanged at `npts_lookup_table`. -/
theorem build_cdf_lookup_table_properties (y : List ℚ) (npts_lookup_table : ℕ)
    (h2 : 2 ≤ y.length) :
    ∃ x_table y_table warnings,
      build_cdf_lookup y npts_lookup_table =
        Except.ok ((x_table, y_table), warnings)
      ∧ x_table.length = max npts_lookup_table y.length
      ∧ y_table.length = x_table.length
      ∧ 2 ≤ x_table.length
      ∧ (∀ i (hi : i < x_table.length),
          x_table.get ⟨i, hi⟩ = ((i : ℚ) + 1) / ((x_table.length : ℚ) + 1))
      ∧ List.Chain' (· < ·) x_table
      ∧ (∀ v ∈ x_table, 0 < v ∧ v < 1)
      ∧ List.Chain' (· ≤ ·) y_table
      ∧ (npts_lookup_table < y.length →
          x_table.length = y.length ∧ warnings = [])
      ∧ (y.length < npts_lookup_table →
          warnings = [buildCdfWarnMsg y.length npts_lookup_table]
          ∧ x_table.length = npts_lookup_table) := by
  refine ⟨sorted_rank_order_array (max npts_lookup_table y.length),
    np_interp (sorted_rank_order_array (max npts_lookup_table y.length))
      (sorted_rank_order_array y.length) (y.insertionSort (· ≤ ·)),
    if y.length < npts_lookup_table then
      [buildCdfWarnMsg y.length npts_lookup_table]
    else [],
    ?_, ?_, ?_, ?_, ?_, ?_, ?_, ?_, ?_, ?_⟩
  · rw [build_cdf_lookup, if_neg (by omega)]
  · exact sorted_rank_order_array_length _
  · rw [np_interp, List.length_map]
  · rw [sorted_rank_order_array_length]
    exact le_trans h2 (Nat.le_max_right _ _)
  · intro i hi
    rw [sorted_rank_order_array_get, sorted_rank_order_array_length]
  · exact sorted_rank_order_array_chain _
  · exact sorted_rank_order_array_mem _
  · rw [np_interp, List.chain'_map]
    apply List.Chain'.imp ?_
      (sorted_rank_order_array_chain (max npts_lookup_table y.length))
    intro a b hab
    apply interpTbl_mono a b hab.le
    apply chain'_zip
    · exact sorted_rank_order_array_chain y.length
    · exact (List.sorted_insertionSort (· ≤ ·) y).chain'
  · intro h
    refine ⟨?_, if_neg (by omega)⟩
    rw [sorted_rank_order_array_length]
    exact Nat.max_eq_right h.le
  · intro h
    refine ⟨if_pos h, ?_⟩
    rw [sorted_rank_order_array_length]
    exact Nat.max_eq_left h.le

/-- Witness for the amended C9 on the concrete dataset `y = [3, 1, 2]` with a
requested table size `2` below `len y`, which is raised to `3` with no
warning. -/
theorem build_cdf_lookup_table_properties_witness :
    2 ≤ ([3, 1, 2] : List ℚ).length
    ∧ ∃ x_table y_table warnings,
      build_cdf_lookup [3, 1, 2] 2 = Except.ok ((x_table, y_table), warnings)
      ∧ x_table.length = max 2 ([3, 1, 2] : List ℚ).length
      ∧ y_table.length = x_table.length
      ∧ 2 ≤ x_table.length
      ∧ (∀ i (hi : i < x_table.length),
          x_table.get ⟨i, hi⟩ = ((i : ℚ) + 1) / ((x_table.length : ℚ) + 1))
      ∧ List.Chain' (· < ·) x_table
      ∧ (∀ v ∈ x_table, 0 < v ∧ v < 1)
      ∧ List.Chain' (· ≤ ·) y_table
      ∧ (2 < ([3, 1, 2] : List ℚ).length →
          x_table.length = ([3, 1, 2] : List ℚ).length ∧ warnings = [])
      ∧ (([3, 1, 2] : List ℚ).length < 2 →
          warnings = [buildCdfWarnMsg ([3, 1, 2] : List ℚ).length 2]
          ∧ x_table.length = 2) :=
  ⟨by norm_num, build_cdf_lookup_table_properties [3, 1, 2] 2 (by norm_num)⟩

/-- Model of the convenience function `NFWProfile.g(x)` from
`profile_models.py`: `1 / (log(1+x) - x/(1+x))`. -/
noncomputable def NFWProfile.g (x : ℝ) : ℝ :=
  1 / (Real.log (1 + x) - x / (1 + x))

/-- Model of `NFWProfile.dimensionless_mass_density(x, conc)`:
`(conc³ / (3 g(conc))) / (conc·x·(1+conc·x)²)`. -/
noncomputable def NFWProfile.dimensionless_mass_density (x conc : ℝ) : ℝ :=
  (conc ^ 3 / (3 * NFWProfile.g conc)) / (conc * x * (1 + conc * x) ^ 2)

/-- Model of `NFWProfile.cumulative_mass_PDF(x, conc)`: both arguments pass
through `convert_to_ndarray` (scalars become singletons), `x` is clamped from
above at `1` by `np.where(x > 1, 1, x)`, the lengths are compared, and on
success the array `g(conc)/g(x·conc)` is returned elementwise. -/
noncomputable def NFWProfile.cumulative_mass_PDF (x conc : List ℝ) :
    Except PyError (List ℝ) :=
  let xc := x.map (fun t => if 1 < t then 1 else t)
  if xc.length ≠ conc.length then
    Except.error (PyError.halotoolsError nfwLengthMismatchMsg)
  else
    Except.ok (List.zipWith
      (fun xi ci => NFWProfile.g ci / NFWProfile.g (xi * ci)) xc conc)

/-- Scalar form of `NFWProfile.cumulative_mass_PDF` (the value its array form
computes at each component). -/
noncomputable def NFWProfile.cumulative_mass_PDF_scalar (x conc : ℝ) : ℝ :=
  NFWProfile.g conc / NFWProfile.g ((if 1 < x then 1 else x) * conc)

/-- Model of the base-class `AnalyticDensityProf.enclosed_mass(radius, *args)`
at one requested radius: `scipy.integrate.quad` of
`density(r)·4·π·r²` from `0` to `radius`, idealized as the exact integral.
The profile's `mass_density` (as a function of radius) is a parameter because
the Python method dispatches on `self`. -/
noncomputable def AnalyticDensityProf.enclosed_mass
    (massDensity : ℝ → ℝ) (radius : ℝ) : ℝ :=
  ∫ r in (0:ℝ)..radius, massDensity r * (4 * Real.pi * r ^ 2)

/-- Model of the base-class `mass_density(r, mass, conc)` as inherited by
`NFWProfile`: `density_threshold · dimensionless_mass_density(r/halo_radius,
conc)`, with `halo_radius = halo_mass_to_halo_radius(mass)` supplied by the
external cosmology collaborator (here a parameter).  No raise site. -/
noncomputable def NFWProfile.mass_density
    (density_threshold halo_radius r conc : ℝ) : Except PyError ℝ :=
  Except.ok (density_threshold *
    NFWProfile.dimensionless_mass_density (r / halo_radius) conc)

/-- The `enclosed_mass` actually wired into `NFWProfile`: the inherited
base-class quadrature applied to the NFW mass density (the closed-form
override in the source is commented out). -/
noncomputable def NFWProfile.enclosed_mass
    (density_threshold halo_radius radius conc : ℝ) : ℝ :=
  AnalyticDensityProf.enclosed_mass
    (fun r => density_threshold *
      NFWProfile.dimensionless_mass_density (r / halo_radius) conc) radius

/-- Model of `TrivialProfile.enclosed_mass(radius, mass)`: returns `mass`
unconditionally; no raise site. -/
def TrivialProfile.enclosed_mass (radius mass : ℝ) : Except PyError ℝ :=
  Except.ok mass

/-- Model of `AnalyticDensityProf.circular_velocity(radius, mass, *args)`:
`sqrt(G · enclosed_mass(radius, ...) / radius)` with `G` the externally
supplied gravitational constant `newtonG.value`; the profile's
`enclosed_mass` (with mass and shape arguments folded in) is a parameter
because the method dispatches on `self`, and its exception propagates. -/
noncomputable def AnalyticDensityProf.circular_velocity (G : ℝ)
    (encl : ℝ → Except PyError ℝ) (radius : ℝ) : Except PyError ℝ :=
  match encl radius with
  | Except.error e => Except.error e
  | Except.ok m => Except.ok (Real.sqrt (G * m / radius))

/-- Model of
`AnalyticDensityProf.gravitational_potential_radial_gradient(radius, ...)`:
`G · enclosed_mass(radius, ...) / radius²`. -/
noncomputable def AnalyticDensityProf.gravitational_potential_radial_gradient
    (G : ℝ) (encl : ℝ → Except PyError ℝ) (radius : ℝ) : Except PyError ℝ :=
  match encl radius with
  | Except.error e => Except.error e
  | Except.ok m => Except.ok (G * m / radius ^ 2)

/-- Modelled from the spec: `halo_radius_to_halo_mass`, the external
cosmology collaborator's radius-to-mass conversion (not under `src/`).  Per
the glossary and section 6, the halo boundary radius is where the mean
enclosed density equals `density_threshold`, so the total mass of a halo of
boundary radius `Rh` is `(4π/3)·ρ_threshold·Rh³`. -/
noncomputable def halo_radius_to_halo_mass
    (density_threshold halo_radius : ℝ) : ℝ :=
  (4 * Real.pi / 3) * density_threshold * halo_radius ^ 3

/-- Positivity of the denominator of `NFWProfile.g` for positive argument:
`log(1+c) > c/(1+c)` for `c > 0`. -/
theorem nfw_g_denom_pos (c : ℝ) (hc : 0 < c) :
    0 < Real.log (1 + c) - c / (1 + c) := by
  have h1c : (0:ℝ) < 1 + c := by linarith
  have hne : (1 + c)⁻¹ ≠ 1 := by
    rw [ne_eq, inv_eq_one]
    intro h
    linarith
  have hlt : Real.log ((1 + c)⁻¹) < (1 + c)⁻¹ - 1 :=
    Real.log_lt_sub_one_of_pos (by positivity) hne
  rw [Real.log_inv] at hlt
  have hfrac : 1 - (1 + c)⁻¹ = c / (1 + c) := by
    field_simp
  linarith

/-- Evaluation of `NFWProfile.cumulative_mass_PDF` on matching lengths:
clamping the map leaves the length unchanged, so the length check passes and
the closed-form array is returned. -/
theorem nfw_cumulative_mass_PDF_eq (x conc : List ℝ) (h : x.length = conc.length) :
    NFWProfile.cumulative_mass_PDF x conc =
      Except.ok (List.zipWith
        (fun xi ci => NFWProfile.g ci / NFWProfile.g (xi * ci))
        (x.map fun t => if 1 < t then 1 else t) conc) := by
  simp only [NFWProfile.cumulative_mass_PDF]
  rw [if_neg]
  simp [List.length_map, h]

/-- C2: for inputs of matching lengths, `NFWProfile.cumulative_mass_PDF`
first clamps every component of `x` exceeding `1` down to `1` and then
returns `g(c)/g(x·c)` with `g(y) = 1/(log(1+y) - y/(1+y))` elementwise,
computed by this closed form (the definition contains no integral). -/
theorem nfw_cumulative_mass_PDF_closed_form (x conc : List ℝ)
    (h : x.length = conc.length) :
    NFWProfile.cumulative_mass_PDF x conc =
      Except.ok (List.zipWith
        (fun xi ci =>
          (1 / (Real.log (1 + ci) - ci / (1 + ci))) /
            (1 / (Real.log (1 + xi * ci) - xi * ci / (1 + xi * ci))))
        (x.map fun t => if 1 < t then 1 else t) conc) := by
  rw [nfw_cumulative_mass_PDF_eq x conc h]
  rfl

/-- Witness for C2 at `x = [2, 1/2]` (first entry clamps to `1`) and
`conc = [3, 3]`. -/
theorem nfw_cumulative_mass_PDF_closed_form_witness :
    ([2, 1/2] : List ℝ).length = ([3, 3] : List ℝ).length
    ∧ NFWProfile.cumulative_mass_PDF [2, 1/2] [3, 3] =
      Except.ok (List.zipWith
        (fun xi ci =>
          (1 / (Real.log (1 + ci) - ci / (1 + ci))) /
            (1 / (Real.log (1 + xi * ci) - xi * ci / (1 + xi * ci))))
        (([2, 1/2] : List ℝ).map fun t => if 1 < t then 1 else t) [3, 3]) :=
  ⟨rfl, nfw_cumulative_mass_PDF_closed_form [2, 1/2] [3, 3] rfl⟩

/-- C4: on an array-length mismatch, `NFWProfile.cumulative_mass_PDF` raises
a `HalotoolsError` whose message names both the concentration array and the
radial-position array. -/
theorem nfw_cumulative_mass_PDF_length_mismatch (x conc : List ℝ)
    (h : x.length ≠ conc.length) :
    NFWProfile.cumulative_mass_PDF x conc =
        Except.error (PyError.halotoolsError nfwLengthMismatchMsg)
    ∧ List.IsInfix "concentrations".toList nfwLengthMismatchMsg.toList
    ∧ List.IsInfix "radial positions".toList nfwLengthMismatchMsg.toList := by
  refine ⟨?_, ?_, ?_⟩
  · simp only [NFWProfile.cumulative_mass_PDF]
    rw [if_pos]
    simpa [List.length_map] using h
  · exact ⟨"If passing an array of ".toList,
      " to cumulative_mass_PDF, the array must have the same length as the input array of radial positions".toList, by decide⟩
  · exact ⟨"If passing an array of concentrations to cumulative_mass_PDF, the array must have the same length as the input array of ".toList,
      "".toList, by decide⟩

/-- Witness for C4 at a length-1 radial array against a length-2
concentration array. -/
theorem nfw_cumulative_mass_PDF_length_mismatch_witness :
    ([1/2] : List ℝ).length ≠ ([1, 2] : List ℝ).length
    ∧ (NFWProfile.cumulative_mass_PDF [1/2] [1, 2] =
        Except.error (PyError.halotoolsError nfwLengthMismatchMsg)
      ∧ List.IsInfix "concentrations".toList nfwLengthMismatchMsg.toList
      ∧ List.IsInfix "radial positions".toList nfwLengthMismatchMsg.toList) :=
  ⟨by simp, nfw_cumulative_mass_PDF_length_mismatch [1/2] [1, 2] (by simp)⟩

/-- C5: for every concentration `c > 0`, the NFW cumulative mass PDF is
exactly `1` at the halo boundary `x = 1` (all mass enclosed) and exactly `0`
at the center `x = 0`. -/
theorem nfw_cumulative_mass_PDF_boundary_values (c : ℝ) (hc : 0 < c) :
    NFWProfile.cumulative_mass_PDF [1] [c] = Except.ok [1]
    ∧ NFWProfile.cumulative_mass_PDF [0] [c] = Except.ok [0] := by
  have hden := nfw_g_denom_pos c hc
  have hg : NFWProfile.g c ≠ 0 := by
    rw [NFWProfile.g]
    exact one_div_ne_zero (ne_of_gt hden)
  constructor
  · rw [nfw_cumulative_mass_PDF_eq [1] [c] rfl]
    norm_num [div_self hg]
  · rw [nfw_cumulative_mass_PDF_eq [0] [c] rfl]
    have hg0 : NFWProfile.g 0 = 0 := by
      rw [NFWProfile.g]
      norm_num
    norm_num [hg0]

/-- Witness for C5 at concentration `c = 2`. -/
theorem nfw_cumulative_mass_PDF_boundary_values_witness :
    (0:ℝ) < 2
    ∧ (NFWProfile.cumulative_mass_PDF [1] [2] = Except.ok [1]
      ∧ NFWProfile.cumulative_mass_PDF [0] [2] = Except.ok [0]) :=
  ⟨by norm_num, nfw_cumulative_mass_PDF_boundary_values 2 (by norm_num)⟩

/-- C6: `TrivialProfile.enclosed_mass(r, mass)` returns exactly `mass` for
every positive radius, independent of the radius. -/
theorem trivial_enclosed_mass_returns_mass (radius mass : ℝ)
    (hr : 0 < radius) :
    TrivialProfile.enclosed_mass radius mass = Except.ok mass := rfl

/-- Witness for C6 at `radius = 2`, `mass = 7`. -/
theorem trivial_enclosed_mass_returns_mass_witness :
    (0:ℝ) < 2 ∧ TrivialProfile.enclosed_mass 2 7 = Except.ok 7 :=
  ⟨by norm_num, trivial_enclosed_mass_returns_mass 2 7 (by norm_num)⟩

/-- C7: for every positive radius, whatever value the profile's
`enclosed_mass` returns, `circular_velocity` returns
`sqrt(G · enclosed_mass / radius)` with the externally supplied gravitational
constant `G`. -/
theorem circular_velocity_formula (G : ℝ) (encl : ℝ → Except PyError ℝ)
    (radius m : ℝ) (hr : 0 < radius) (hm : encl radius = Except.ok m) :
    AnalyticDensityProf.circular_velocity G encl radius =
      Except.ok (Real.sqrt (G * m / radius)) := by
  simp only [AnalyticDensityProf.circular_velocity, hm]

/-- Witness for C7 with the trivial profile's enclosed mass at
`G = 43`, `radius = 2`, `mass = 7`. -/
theorem circular_velocity_formula_witness :
    (0:ℝ) < 2
    ∧ AnalyticDensityProf.circular_velocity 43
        (fun r => TrivialProfile.enclosed_mass r 7) 2 =
        Except.ok (Real.sqrt (43 * 7 / 2)) :=
  ⟨by norm_num,
    circular_velocity_formula 43 (fun r => TrivialProfile.enclosed_mass r 7)
      2 7 (by norm_num) rfl⟩

/-- Counterexample to C3: a negative radius does not make the call fail with
a `DomainError`; `TrivialProfile.enclosed_mass(-1, 5)` silently returns the
numeric value `5`. -/
theorem negative_radius_no_domain_error_counterexample :
    TrivialProfile.enclosed_mass (-1) 5 = Except.ok 5
    ∧ TrivialProfile.enclosed_mass (-1) 5 ≠ Except.error PyError.domainError :=
  ⟨rfl, fun h => Except.noConfusion h⟩

/-- C3 as amended: the radius-taking profile operations perform no radius
validation at all; for a non-positive radius each of `enclosed_mass`
(trivial profile), `mass_density` (NFW), `circular_velocity` and
`gravitational_potential_radial_gradient` returns an ordinary numeric value
and no `DomainError` is raised (none exists in the module). -/
theorem no_radius_validation_amended (radius : ℝ) (hr : radius ≤ 0)
    (mass density_threshold halo_radius conc G : ℝ) :
    TrivialProfile.enclosed_mass radius mass = Except.ok mass
    ∧ (∃ v, NFWProfile.mass_density density_threshold halo_radius radius conc =
        Except.ok v)
    ∧ (∃ v, AnalyticDensityProf.circular_velocity G
        (fun r => TrivialProfile.enclosed_mass r mass) radius = Except.ok v)
    ∧ (∃ v, AnalyticDensityProf.gravitational_potential_radial_gradient G
        (fun r => TrivialProfile.enclosed_mass r mass) radius = Except.ok v) :=
  ⟨rfl, ⟨_, rfl⟩, ⟨_, rfl⟩, ⟨_, rfl⟩⟩

/-- Witness for the amended C3 at `radius = -1`. -/
theorem no_radius_validation_amended_witness :
    (-1 : ℝ) ≤ 0
    ∧ (TrivialProfile.enclosed_mass (-1) 5 = Except.ok 5
      ∧ (∃ v, NFWProfile.mass_density 2 3 (-1) 4 = Except.ok v)
      ∧ (∃ v, AnalyticDensityProf.circular_velocity 6
          (fun r => TrivialProfile.enclosed_mass r 5) (-1) = Except.ok v)
      ∧ (∃ v, AnalyticDensityProf.gravitational_potential_radial_gradient 6
          (fun r => TrivialProfile.enclosed_mass r 5) (-1) = Except.ok v)) :=
  ⟨by norm_num, no_radius_validation_amended (-1) (by norm_num) 5 2 3 4 6⟩

/-- C1 failing-input evaluation: with `density_threshold = 3/(4π)` and
`halo_radius = 1` (so the collaborator's total mass is `1`) and concentration
`c = 1`, the `enclosed_mass` actually wired into `NFWProfile` — the inherited
base-class quadrature — evaluates at the halo boundary radius to
`(log 2 - 1/2)² ≈ 0.0373`, which differs from the closed form
`mass · cumulative_mass_PDF(radius/R_halo, c) = 1` that the claim says is
wired in.  The integral here is exact, so the discrepancy is analytic, not a
quadrature tolerance artifact. -/
theorem nfw_enclosed_mass_failing_input_eval :
    NFWProfile.enclosed_mass (3 / (4 * Real.pi)) 1 1 1 = (Real.log 2 - 2⁻¹) ^ 2
    ∧ NFWProfile.enclosed_mass (3 / (4 * Real.pi)) 1 1 1 ≠
        halo_radius_to_halo_mass (3 / (4 * Real.pi)) 1 *
          NFWProfile.cumulative_mass_PDF_scalar 1 1 := by
  have hd0 : 0 < Real.log 2 - 2⁻¹ := by
    nlinarith [Real.log_two_gt_d9]
  have hd1 : Real.log 2 - 2⁻¹ < 1 := by
    nlinarith [Real.log_two_lt_d9]
  have hg1 : NFWProfile.g 1 = 1 / (Real.log 2 - 2⁻¹) := by
    rw [NFWProfile.g]
    norm_num
  have key : Set.EqOn
      (fun r : ℝ => (3 / (4 * Real.pi) *
          NFWProfile.dimensionless_mass_density (r / 1) 1) *
        (4 * Real.pi * r ^ 2))
      (fun r : ℝ => (Real.log 2 - 2⁻¹) * (r / (1 + r) ^ 2))
      (Set.uIcc (0:ℝ) 1) := by
    intro r hr
    rw [Set.uIcc_of_le (by norm_num : (0:ℝ) ≤ 1)] at hr
    rcases eq_or_lt_of_le hr.1 with hr0 | hr0
    · simp [← hr0, NFWProfile.dimensionless_mass_density]
    · have h1r : (0:ℝ) < 1 + r := by linarith
      simp only [NFWProfile.dimensionless_mass_density, hg1, div_one,
        one_pow, one_mul]
      field_simp
      ring
  have hder : ∀ r ∈ Set.uIcc (0:ℝ) 1,
      HasDerivAt
        (fun t : ℝ => (Real.log 2 - 2⁻¹) * (Real.log (1 + t) - t / (1 + t)))
        ((Real.log 2 - 2⁻¹) * (r / (1 + r) ^ 2)) r := by
    intro r hr
    rw [Set.uIcc_of_le (by norm_num : (0:ℝ) ≤ 1)] at hr
    have h1r : (0:ℝ) < 1 + r := by linarith [hr.1]
    have hlog : HasDerivAt (fun t : ℝ => Real.log (1 + t)) (1 / (1 + r)) r := by
      have h := (((hasDerivAt_id r).const_add (1:ℝ)).log (ne_of_gt h1r))
      simpa using h
    have hdiv : HasDerivAt (fun t : ℝ => t / (1 + t))
        ((1 * (1 + r) - r * 1) / (1 + r) ^ 2) r :=
      (hasDerivAt_id r).div ((hasDerivAt_id r).const_add 1) (ne_of_gt h1r)
    have hcomb := (hlog.sub hdiv).const_mul (Real.log 2 - 2⁻¹)
    convert hcomb using 1
    field_simp
    ring
  have hcont : IntervalIntegrable
      (fun r : ℝ => (Real.log 2 - 2⁻¹) * (r / (1 + r) ^ 2))
      MeasureTheory.volume 0 1 := by
    apply ContinuousOn.intervalIntegrable
    apply ContinuousOn.mul continuousOn_const
    apply ContinuousOn.div continuousOn_id (by fun_prop)
    intro r hr
    rw [Set.uIcc_of_le (by norm_num : (0:ℝ) ≤ 1)] at hr
    have h1r : (0:ℝ) < 1 + r := by linarith [hr.1]
    positivity
  have h1 : NFWProfile.enclosed_mass (3 / (4 * Real.pi)) 1 1 1 =
      (Real.log 2 - 2⁻¹) ^ 2 := by
    simp only [NFWProfile.enclosed_mass, AnalyticDensityProf.enclosed_mass]
    rw [intervalIntegral.integral_congr key,
      intervalIntegral.integral_eq_sub_of_hasDerivAt hder hcont]
    norm_num [Real.log_one]
    ring
  have hmass : halo_radius_to_halo_mass (3 / (4 * Real.pi)) 1 = 1 := by
    rw [halo_radius_to_halo_mass]
    field_simp [Real.pi_ne_zero]
  have hcs : NFWProfile.cumulative_mass_PDF_scalar 1 1 = 1 := by
    rw [NFWProfile.cumulative_mass_PDF_scalar]
    norm_num [hg1]
    have hne : Real.log 2 - 1/2 ≠ 0 := by nlinarith [Real.log_two_gt_d9]
    exact inv_mul_cancel₀ hne
  refine ⟨h1, ?_⟩
  rw [h1, hmass, hcs, one_mul]
  intro h
  nlinarith [hd0, hd1]
